import Mathlib

/-!
Verification development for the planai-demo web-content ingestion pipeline
(`planA_scrapper_danswer.py`).  The Python source is shallowly embedded:
pure functions become Lean functions over `List Char` / `String`, the
stateful crawl loop (`WebConnector.load_from_state`) becomes an explicit
step function on a crawl-state record driven by fuel, and the external
effects (HTTP, the playwright render session, `pypdf`, `bs4` parsing) are
supplied as explicit environment records so that the connector logic
itself is translated line by line from the source.
-/

/-- Characters Python's `str.isspace` / `str.strip` treat as whitespace
(the ASCII ones, which are the only ones these inputs contain). -/
def pyIsSpace (c : Char) : Bool :=
  c = ' ' || c = '\t' || c = '\n' || c = '\r' || c = '\x0b' || c = '\x0c'

/-- Python `str.strip()`: drop leading and trailing whitespace. -/
def pyStrip (l : List Char) : List Char :=
  ((l.dropWhile pyIsSpace).reverse.dropWhile pyIsSpace).reverse

/-- Is the character one of `\n`, `\r`?  (The character class `[\n\r]`
used by the regexes in `strip_excessive_newlines_and_spaces`.) -/
def isNLChar (c : Char) : Bool := c = '\n' || c = '\r'

/-- `re.sub(p+, rep, s)` for a single-character-class pattern `p`:
every maximal run of characters satisfying `p` is replaced by `rep`.
The `Bool` argument records whether the previous character was in a run. -/
def collapseRunsAux (p : Char → Bool) (rep : List Char) : List Char → Bool → List Char
  | [], _ => []
  | c :: rest, inRun =>
    if p c then (if inRun then [] else rep) ++ collapseRunsAux p rep rest true
    else c :: collapseRunsAux p rep rest false

def collapseRuns (p : Char → Bool) (rep : List Char) (l : List Char) : List Char :=
  collapseRunsAux p rep l false

/-- `re.sub(r" +[\n\r]", "\n", s)`:  a run of spaces immediately followed
by a newline character is replaced, together with that newline, by a
single `\n`.  Processing the tail first lets a space absorb into the
newline the rest of the string starts with. -/
def subSpacesNL : List Char → List Char
  | [] => []
  | ' ' :: rest =>
    match subSpacesNL rest with
    | '\n' :: tail => '\n' :: tail
    | '\r' :: tail => '\n' :: tail
    | r => ' ' :: r
  | c :: rest => c :: subSpacesNL rest

/-- `strip_excessive_newlines_and_spaces` from the source: collapse runs
of spaces, remove trailing spaces before newlines, collapse runs of
newlines, then strip the ends. -/
def strip_excessive_newlines_and_spaces (l : List Char) : List Char :=
  pyStrip (collapseRuns isNLChar ['\n'] (subSpacesNL (collapseRuns (· = ' ') [' '] l)))

/-- `strip_newlines` from the source: `re.sub(r"[\n\r]+", " ", document)`. -/
def strip_newlines (l : List Char) : List Char :=
  collapseRuns isNLChar [' '] l

/-- A node of the parsed HTML tree (`bs4` objects as the walk sees them):
a `NavigableString`, a `Comment`/`Doctype` (skipped by the walk), or a
`Tag` with a name and children. -/
inductive DomNode where
  | text (s : String)
  | comment (s : String)
  | elem (name : String) (children : List DomNode)
deriving Repr

/-- Number of direct children: `len(list(e.childGenerator()))`. -/
def DomNode.childCount : DomNode → Nat
  | .elem _ cs => cs.length
  | _ => 0

mutual
/-- The node itself followed by its descendants, in pre-order. -/
def nodeWithDesc : DomNode → List DomNode
  | .text s => [.text s]
  | .comment s => [.comment s]
  | .elem n cs => .elem n cs :: listDesc cs

/-- `document.descendants` for a document whose top-level nodes are the
given list: every node of every tree, in pre-order. -/
def listDesc : List DomNode → List DomNode
  | [] => []
  | n :: rest => nodeWithDesc n ++ listDesc rest
end

/-- The mutable locals of the `format_document_soup` walk. -/
structure FormatState where
  text : List Char
  list_element_start : Bool
  verbatim_output : Int
  in_table : Bool
  last_added_newline : Bool
deriving Repr, DecidableEq

def initFormatState : FormatState :=
  { text := [], list_element_start := false, verbatim_output := 0,
    in_table := false, last_added_newline := false }

def startsWithSpace : List Char → Bool
  | ' ' :: _ => true
  | _ => false

/-- One iteration of the `for e in document.descendants` loop of
`format_document_soup`.  `verbatim_output -= 1` happens first; then the
node is dispatched on its kind exactly as the Python `if`-chain does. -/
def formatStep (sep : List Char) (s : FormatState) (e : DomNode) : FormatState :=
  let v := s.verbatim_output - 1
  match e with
  | .comment _ => { s with verbatim_output := v }
  | .text t0 =>
    let element_text :=
      if s.in_table then pyStrip (t0.data.map (fun c => if c = '\n' then ' ' else c))
      else t0.data
    let dropLead := s.last_added_newline && startsWithSpace element_text
    let element_text := if dropLead then element_text.tail else element_text
    let lan := if dropLead then false else s.last_added_newline
    if element_text.isEmpty then
      { s with verbatim_output := v, last_added_newline := lan }
    else
      let content_to_add := if v > 0 then element_text else strip_newlines element_text
      let needSpace :=
        (!s.text.isEmpty && !pyIsSpace (s.text.getLastD ' ')) &&
        (!content_to_add.isEmpty && !pyIsSpace (content_to_add.headD ' '))
      { s with text := (if needSpace then s.text ++ [' '] else s.text) ++ content_to_add,
               list_element_start := false, verbatim_output := v,
               last_added_newline := lan }
  | .elem name cs =>
    if name = "table" then { s with in_table := true, verbatim_output := v }
    else if name = "tr" && s.in_table then
      { s with text := s.text ++ ['\n'], verbatim_output := v }
    else if (name = "td" || name = "th") && s.in_table then
      { s with text := s.text ++ sep, verbatim_output := v }
    else if name = "/table" then { s with in_table := false, verbatim_output := v }
    else if s.in_table then { s with verbatim_output := v }
    else if name = "p" || name = "div" then
      if !s.list_element_start then { s with text := s.text ++ ['\n'], verbatim_output := v }
      else { s with verbatim_output := v }
    else if name = "h1" || name = "h2" || name = "h3" || name = "h4" then
      { s with text := s.text ++ ['\n'], list_element_start := false,
               last_added_newline := true, verbatim_output := v }
    else if name = "br" then
      { s with text := s.text ++ ['\n'], list_element_start := false,
               last_added_newline := true, verbatim_output := v }
    else if name = "li" then
      { s with text := s.text ++ ['\n', '-', ' '], list_element_start := true,
               verbatim_output := v }
    else if name = "pre" then
      if v ≤ 0 then { s with verbatim_output := (cs.length : Int) }
      else { s with verbatim_output := v }
    else { s with verbatim_output := v }

/-- The final walk state of `format_document_soup` on a document whose
top-level nodes are `doc`. -/
def formatWalk (sep : List Char) (doc : List DomNode) : FormatState :=
  (listDesc doc).foldl (formatStep sep) initFormatState

/-- `format_document_soup` from the source (the `table_cell_separator`
defaults to a tab). -/
def format_document_soup (doc : List DomNode) (sep : List Char := ['\t']) : String :=
  ⟨strip_excessive_newlines_and_spaces (formatWalk sep doc).text⟩

/-- Does `sub` occur as a contiguous sublist of the second argument? -/
def subOccurs (sub : List Char) : List Char → Bool
  | [] => sub.isEmpty
  | c :: rest => sub.isPrefixOf (c :: rest) || subOccurs sub rest

/-- `sub in s`: Python substring containment. -/
def strContains (s sub : String) : Bool := subOccurs sub.data s.data

/-- Characters allowed in a URL scheme (model of `urllib.parse`). -/
def isSchemeChar (c : Char) : Bool := c.isAlphanum || c = '+' || c = '-' || c = '.'

/-- Scan up to the first `:`; return the candidate scheme (reversed into
`acc`) and the remainder, or `none` when there is no `:` or a non-scheme
character precedes it. -/
def splitSchemeAux (acc : List Char) : List Char → Option (List Char × List Char)
  | [] => none
  | ':' :: rest => some (acc.reverse, rest)
  | c :: rest => if isSchemeChar c then splitSchemeAux (c :: acc) rest else none

/-- Model of `urllib.parse.urlparse` restricted to the scheme field: the
part before the first `:` when it is a nonempty run of scheme characters
starting with a letter, lowercased; otherwise empty. -/
def urlScheme (url : String) : String :=
  match splitSchemeAux [] url.data with
  | some (sch, _) =>
    if sch.isEmpty then ""
    else if (sch.headD ' ').isAlpha then ⟨sch.map Char.toLower⟩ else ""
  | none => ""

/-- The part of the URL after the scheme separator (the whole URL when no
valid scheme is present). -/
def afterScheme (url : String) : List Char :=
  match splitSchemeAux [] url.data with
  | some (sch, rest) =>
    if sch.isEmpty then url.data
    else if (sch.headD ' ').isAlpha then rest else url.data
  | none => url.data

/-- Model of `urllib.parse.urlparse` restricted to the netloc field: when
the remainder after the scheme starts with `//`, the characters up to the
next `/`, `?` or `#`; otherwise empty. -/
def netlocOf (url : String) : String :=
  match afterScheme url with
  | '/' :: '/' :: r => ⟨r.takeWhile (fun c => c ≠ '/' && c ≠ '?' && c ≠ '#')⟩
  | _ => ""

/-- Everything after the netloc (path, query and fragment). -/
def pathPartOf (url : String) : List Char :=
  match afterScheme url with
  | '/' :: '/' :: r => r.dropWhile (fun c => c ≠ '/' && c ≠ '?' && c ≠ '#')
  | r => r

/-- `is_valid_url` from the source: `urlparse` succeeds and both the
scheme and the netloc are non-empty. -/
def is_valid_url (url : String) : Bool :=
  urlScheme url ≠ "" && netlocOf url ≠ ""

/-- The base path with everything after its last `/` removed (the merge
step of relative resolution). -/
def dirnameOf (path : List Char) : List Char :=
  (path.reverse.dropWhile (fun c => c ≠ '/')).reverse

/-- Model of `urllib.parse.urljoin` for the URL shapes the connector
passes it: an empty reference returns the base unchanged; a reference
with its own scheme is absolute; `//`-references keep only the base
scheme; `/`-references keep scheme and netloc; other references replace
the last segment of the base path.  Dot-segment normalization, which no
claim exercises, is omitted. -/
def urljoin (base url : String) : String :=
  if base = "" then url
  else if url = "" then base
  else if urlScheme url ≠ "" then url
  else
    let root : String := urlScheme base ++ "://" ++ netlocOf base
    match url.data with
    | '/' :: '/' :: _ => urlScheme base ++ ":" ++ url
    | '/' :: _ => root ++ url
    | _ => root ++ ⟨dirnameOf (pathPartOf base)⟩ ++ url

/-- One anchor of `soup.find_all("a")`: its `href` attribute, when any. -/
abbrev Anchor := Option String

/-- The body of the `for link in soup.find_all("a")` loop of
`get_internal_links`: skip missing or empty `href`s, strip the fragment
when configured, resolve relative references against the page URL, and
keep the link when its netloc matches the page and it contains the base
URL as a substring. -/
def linkStep (base_url url : String) (should_ignore_pound : Bool)
    (internal_links : List String) (href? : Anchor) : List String :=
  match href? with
  | none => internal_links
  | some href0 =>
    if href0 = "" then internal_links
    else
      let href1 := if should_ignore_pound && href0.data.contains '#'
        then (⟨href0.data.takeWhile (· ≠ '#')⟩ : String) else href0
      let href2 := if !is_valid_url href1 then urljoin url href1 else href1
      if netlocOf href2 = netlocOf url ∧ strContains href2 base_url = true then
        if href2 ∈ internal_links then internal_links else internal_links ++ [href2]
      else internal_links

/-- `get_internal_links` from the source.  The `bs4` query
`soup.find_all("a")` is abstracted as the document-order list of anchor
`href`s; the Python `set` is modeled as a list deduplicated in insertion
order (no claim depends on set iteration order). -/
def get_internal_links (base_url url : String) (anchors : List Anchor)
    (should_ignore_pound : Bool := true) : List String :=
  anchors.foldl (linkStep base_url url should_ignore_pound) []

/-- Abstraction of a `pypdf.PdfReader`: the encryption flag, the result
of `decrypt` per password (`none` models the call raising), and the
extracted page texts (`none` models `extract_text` raising, as `pypdf`
does for an encrypted document that was never decrypted). -/
structure PdfFile where
  is_encrypted : Bool
  decrypt : String → Option Nat
  pages : Option (List String)

/-- `read_pdf_file` from the source. -/
def read_pdf_file (pdf_reader : PdfFile) (file_name : String)
    (pdf_pass : Option String := none) : String :=
  let extracted : String :=
    match pdf_reader.pages with
    | some ps => String.intercalate "\n" ps
    | none => ""
  if pdf_reader.is_encrypted && pdf_pass.isSome then
    let decrypt_success : Bool :=
      match pdf_pass with
      | some p =>
        match pdf_reader.decrypt p with
        | some n => n != 0
        | none => false
      | none => false
    if !decrypt_success then "" else extracted
  else extracted

/-- `current_url.split(".")[-1] == "pdf"`: Python `str.split` on a
single-character separator. -/
def splitOnChar (c : Char) : List Char → List (List Char)
  | [] => [[]]
  | x :: rest =>
    let r := splitOnChar c rest
    if x = c then [] :: r else (x :: r.headD []) :: r.tail

def isPdfUrl (url : String) : Bool :=
  (splitOnChar '.' url.data).getLastD [] = "pdf".data

/-- A metadata value: a string or a list of strings. -/
inductive MetaValue where
  | str (s : String)
  | strList (l : List String)
deriving Repr, DecidableEq

/-- The `Document` dataclass.  The Python `dict` metadata is modeled as
an association list in insertion order. -/
structure Document where
  id : String
  text : String
  source : Option String
  metadata : List (String × MetaValue)
deriving Repr, DecidableEq

/-- What one successful playwright render of a URL provides to the loop:
the post-redirect `page.url`, the `href`s of the anchors `find_all("a")`
yields on the rendered soup, the outputs the loop derives from the soup
via `web_html_cleanup` and the metadata query (abstracted here, since
the claims about the loop hold for every value of them), and whether the
trailing `page.close()` call raises.  `page.close()` sits inside the
`try`, after `doc_batch.append`, so its failure is part of the render
environment of that page. -/
structure RenderedPage where
  finalUrl : String
  anchors : List Anchor
  cleanedText : String
  title : String
  tagContents : List String
  closeRaises : Bool

/-- The external world of one crawl: `web.render u` is what
`page.goto(u); page.content()` produces (`none` models the call raising),
and `web.pdfFetch u` is the `PdfReader` built from `requests.get(u)`
(`none` models either call raising). -/
structure Web where
  render : String → Option RenderedPage
  pdfFetch : String → Option PdfFile

/-- The metadata dict the loop builds: always `title`, plus `content`
when the tag-marker query returned elements. -/
def metadataOf (r : RenderedPage) : List (String × MetaValue) :=
  ("title", .str r.title) ::
    (if r.tagContents.isEmpty then [] else [("content", .strList r.tagContents)])

/-- The mutable state of `load_from_state`: the frontier (Python list,
top at the end), the visited set (modeled as a deduplicating list), the
document buffer, the batches yielded so far, the session-restart flag,
the generation number of the current playwright session, and the visit
log (`logger.info("Visiting ...")`) paired with the session generation
current at that visit. -/
structure CrawlState where
  to_visit : List String
  visited_links : List String
  doc_batch : List Document
  batches : List (List Document)
  restart_playwright : Bool
  session : Nat
  dispatched : List (String × Nat)
deriving Repr, DecidableEq

/-- The session generation the body of the iteration runs with: the
`if restart_playwright: playwright, context = start_playwright()` block
replaces the session exactly when the flag is set. -/
def CrawlState.sessionNow (s : CrawlState) : Nat :=
  if s.restart_playwright then s.session + 1 else s.session

/-- `if current_url in visited_links: continue`. -/
def popSkip (s : CrawlState) (rest : List String) : CrawlState :=
  { s with to_visit := rest }

/-- The `except` branch: log, stop playwright, set the restart flag and
continue; the popped URL stays visited and is not re-queued. -/
def fetchFailed (s : CrawlState) (rest : List String) (u : String) : CrawlState :=
  { s with to_visit := rest,
           visited_links := s.visited_links ++ [u],
           dispatched := s.dispatched ++ [(u, s.sessionNow)],
           session := s.sessionNow,
           restart_playwright := true }

/-- The PDF branch: append the document (empty metadata) and `continue`,
which skips the batch-size check at the bottom of the loop. -/
def pdfDone (s : CrawlState) (rest : List String) (u : String) (page_text : String) :
    CrawlState :=
  { s with to_visit := rest,
           visited_links := s.visited_links ++ [u],
           dispatched := s.dispatched ++ [(u, s.sessionNow)],
           session := s.sessionNow,
           restart_playwright := false,
           doc_batch := s.doc_batch ++ [⟨u, page_text, some u, []⟩] }

/-- The redirect-already-indexed branch: `continue` with nothing emitted. -/
def redirectDup (s : CrawlState) (rest : List String) (u : String) : CrawlState :=
  { s with to_visit := rest,
           visited_links := s.visited_links ++ [u],
           dispatched := s.dispatched ++ [(u, s.sessionNow)],
           session := s.sessionNow,
           restart_playwright := false }

/-- The visited set after the redirect check: the popped URL, plus the
final URL when the render was redirected to a new one. -/
def pageVisited (s : CrawlState) (u : String) (r : RenderedPage) : List String :=
  if r.finalUrl = u then s.visited_links ++ [u]
  else (s.visited_links ++ [u]) ++ [r.finalUrl]

/-- The links pushed onto the frontier: in recursive mode, the internal
links of the page that are not yet visited, in discovery order. -/
def pageLinks (recursive : Bool) (base_url : String) (visited2 : List String)
    (r : RenderedPage) : List String :=
  if recursive then
    (get_internal_links base_url r.finalUrl r.anchors true).filter
      (fun link => !visited2.contains link)
  else []

/-- The document assembled for a successfully rendered page. -/
def pageDoc (r : RenderedPage) : Document :=
  ⟨r.finalUrl, r.cleanedText, some r.finalUrl, metadataOf r⟩

/-- The HTML branch from the redirect check through the batch-size
check: record the redirect target as visited when there was one, push
the not-yet-visited internal links (recursive mode), and append the
assembled document.  Then `page.close()` runs, still inside the `try`:
if it raises, the `except` logs, marks the session for recreation and
`continue`s — the appended document stays in the buffer and the
batch-size check at the bottom of the loop is skipped.  Otherwise the
batch is flushed when the buffer has reached `batch_size`. -/
def pageDone (recursive : Bool) (batch_size : Nat) (base_url : String)
    (s : CrawlState) (rest : List String) (u : String) (r : RenderedPage) : CrawlState :=
  let visited2 := pageVisited s u r
  let links := pageLinks recursive base_url visited2 r
  let db2 := s.doc_batch ++ [pageDoc r]
  if r.closeRaises then
    { s with to_visit := rest ++ links, visited_links := visited2,
             dispatched := s.dispatched ++ [(u, s.sessionNow)], session := s.sessionNow,
             restart_playwright := true, doc_batch := db2 }
  else if batch_size ≤ db2.length then
    { s with to_visit := rest ++ links, visited_links := visited2,
             dispatched := s.dispatched ++ [(u, s.sessionNow)], session := s.sessionNow,
             restart_playwright := true, doc_batch := [],
             batches := s.batches ++ [db2] }
  else
    { s with to_visit := rest ++ links, visited_links := visited2,
             dispatched := s.dispatched ++ [(u, s.sessionNow)], session := s.sessionNow,
             restart_playwright := false, doc_batch := db2 }

/-- Loop exit: `if doc_batch: yield doc_batch` — the final partial
buffer is flushed as the last batch. -/
def flushFinal (s : CrawlState) : CrawlState :=
  if s.doc_batch.isEmpty then s
  else { s with batches := s.batches ++ [s.doc_batch], doc_batch := [] }

/-- The result of one pass through the `while to_visit:` body. -/
inductive StepResult where
  | more (s : CrawlState)
  | done (s : CrawlState)
deriving Repr, DecidableEq

def StepResult.state : StepResult → CrawlState
  | .more s => s
  | .done s => s

/-- One iteration of the `while to_visit:` loop of `load_from_state`,
translated branch for branch from the source. -/
def crawlIter (web : Web) (recursive : Bool) (batch_size : Nat) (base_url : String)
    (s : CrawlState) : StepResult :=
  match s.to_visit.getLast? with
  | none => .done (flushFinal s)
  | some current_url =>
    let rest := s.to_visit.dropLast
    if current_url ∈ s.visited_links then .more (popSkip s rest)
    else if isPdfUrl current_url then
      match web.pdfFetch current_url with
      | none => .more (fetchFailed s rest current_url)
      | some f => .more (pdfDone s rest current_url (read_pdf_file f current_url none))
    else
      match web.render current_url with
      | none => .more (fetchFailed s rest current_url)
      | some r =>
        if r.finalUrl ≠ current_url ∧ r.finalUrl ∈ s.visited_links ++ [current_url] then
          .more (redirectDup s rest current_url)
        else .more (pageDone recursive batch_size base_url s rest current_url r)

/-- The crawl loop driven by fuel.  The saturating flag is `true` when
the loop reached its natural termination (empty frontier, final flush)
within the given fuel. -/
def crawlLoop (web : Web) (recursive : Bool) (batch_size : Nat) (base_url : String) :
    Nat → CrawlState → CrawlState × Bool
  | 0, s => (s, false)
  | fuel + 1, s =>
    match crawlIter web recursive batch_size base_url s with
    | .done t => (t, true)
    | .more t => crawlLoop web recursive batch_size base_url fuel t

def initCrawlState (to_visit_list : List String) : CrawlState :=
  { to_visit := to_visit_list, visited_links := [], doc_batch := [], batches := [],
    restart_playwright := false, session := 1, dispatched := [] }

/-- `load_from_state`: the crawl from its initial state.  `base_url` is
`to_visit[0]` (the source indexes an assumed-nonempty seed list). -/
def load_from_state (web : Web) (recursive : Bool) (batch_size : Nat)
    (to_visit_list : List String) (fuel : Nat) : CrawlState × Bool :=
  crawlLoop web recursive batch_size (to_visit_list.headD "") fuel
    (initCrawlState to_visit_list)

/-- `_ensure_valid_url` from the source. -/
def _ensure_valid_url (url : String) : String :=
  if !strContains url "://" then "https://" ++ url else url

/-- The external inputs of construction: the `<loc>` texts of a fetched
sitemap (`extract_urls_from_sitemap` with its HTTP fetch and `bs4` query
abstracted) and the lines of a local URL file. -/
structure InitEnv where
  sitemapLocs : String → List String
  fileLines : String → List String

/-- `extract_urls_from_sitemap`: the `<loc>` texts in document order. -/
def extract_urls_from_sitemap (env : InitEnv) (sitemap_url : String) : List String :=
  env.sitemapLocs sitemap_url

/-- `_read_urls_file`: strip each line, skip blanks, normalize. -/
def _read_urls_file (env : InitEnv) (location : String) : List String :=
  (env.fileLines location).filterMap (fun line =>
    let t : String := ⟨pyStrip line.data⟩
    if t = "" then none else some (_ensure_valid_url t))

/-- The fields of a constructed `WebConnector`. -/
structure WebConnector where
  mintlify_cleanup : Bool
  batch_size : Nat
  recursive : Bool
  to_visit_list : List String
deriving Repr, DecidableEq

/-- `WebConnector.__init__`.  The `web_connector_type` string is compared
against the values of the `WEB_CONNECTOR_VALID_SETTINGS` string enum (a
`str` subclass, so the bare members equal their values); an unrecognized
type raises `ValueError`. -/
def WebConnector.make (env : InitEnv) (base_url : String)
    (web_connector_type : String := "recursive") (mintlify_cleanup : Bool := true)
    (batch_size : Nat := 16) : Except String WebConnector :=
  if web_connector_type = "recursive" then
    .ok ⟨mintlify_cleanup, batch_size, true, [_ensure_valid_url base_url]⟩
  else if web_connector_type = "single" then
    .ok ⟨mintlify_cleanup, batch_size, false, [_ensure_valid_url base_url]⟩
  else if web_connector_type = "sitemap" then
    .ok ⟨mintlify_cleanup, batch_size, false,
         extract_urls_from_sitemap env (_ensure_valid_url base_url)⟩
  else if web_connector_type = "upload" then
    .ok ⟨mintlify_cleanup, batch_size, false, _read_urls_file env base_url⟩
  else
    .error "Invalid Web Connector Config, must choose a valid type between: "

def allIds (s : CrawlState) : List String :=
  (s.batches.flatten ++ s.doc_batch).map Document.id

def CrawlInv (s : CrawlState) : Prop :=
  (allIds s).Nodup ∧ (∀ i ∈ allIds s, i ∈ s.visited_links) ∧
  (s.dispatched.map Prod.fst).Nodup ∧ (∀ u ∈ s.dispatched.map Prod.fst, u ∈ s.visited_links)

/-- The loop invariant behind the batch-sizing property: every batch
yielded so far is exactly full, and the buffer is strictly below the
batch size. -/
def BatchInv (B : Nat) (s : CrawlState) : Prop :=
  (∀ b ∈ s.batches, b.length = B) ∧ s.doc_batch.length < B

/-- The shape of the batches of a finished crawl: all but the last are
exactly full, every batch is nonempty and at most full, and the batch
count is the ceiling of documents over batch size. -/
def FinalBatches (B : Nat) (t : CrawlState) : Prop :=
  (∀ b ∈ t.batches.dropLast, b.length = B) ∧
  (∀ b ∈ t.batches, 1 ≤ b.length ∧ b.length ≤ B) ∧
  t.batches.length = (t.batches.flatten.length + B - 1) / B

def tableDoc : List DomNode :=
  [.elem "table"
    [.elem "tr" [.elem "td" [.text "A"], .elem "td" [.text "B"]],
     .elem "tr" [.elem "td" [.text "C"], .elem "td" [.text "D"]]]]

def preDoc : List DomNode := [.elem "pre" [.text "a\nb"]]

def preDoc2 : List DomNode := [.elem "pre" [.text "a\nb", .text "c\nd"]]

def isTableCloseNode : DomNode → Bool
  | .elem name _ => name = "/table"
  | _ => false

theorem crawlIter_concat (web : Web) (rec : Bool) (B : Nat) (base : String)
    (s : CrawlState) (rest : List String) (u : String) (h : s.to_visit = rest ++ [u]) :
    crawlIter web rec B base s =
      if u ∈ s.visited_links then .more (popSkip s rest)
      else if isPdfUrl u then
        match web.pdfFetch u with
        | none => .more (fetchFailed s rest u)
        | some f => .more (pdfDone s rest u (read_pdf_file f u none))
      else match web.render u with
        | none => .more (fetchFailed s rest u)
        | some r =>
          if r.finalUrl ≠ u ∧ r.finalUrl ∈ s.visited_links ++ [u]
          then .more (redirectDup s rest u)
          else .more (pageDone rec B base s rest u r) := by
  unfold crawlIter
  rw [h]
  simp only [List.getLast?_concat, List.dropLast_concat]

theorem crawlIter_nil (web : Web) (rec : Bool) (B : Nat) (base : String)
    (s : CrawlState) (h : s.to_visit = []) :
    crawlIter web rec B base s = .done (flushFinal s) := by
  unfold crawlIter
  rw [h]
  rfl

theorem crawlIter_cases (web : Web) (rec : Bool) (B : Nat) (base : String) (s : CrawlState) :
    (s.to_visit = [] ∧ crawlIter web rec B base s = .done (flushFinal s)) ∨
    (∃ rest u, s.to_visit = rest ++ [u] ∧
      ((u ∈ s.visited_links ∧ crawlIter web rec B base s = .more (popSkip s rest)) ∨
       (u ∉ s.visited_links ∧
         (crawlIter web rec B base s = .more (fetchFailed s rest u) ∨
          (isPdfUrl u ∧ ∃ pt, crawlIter web rec B base s = .more (pdfDone s rest u pt)) ∨
          crawlIter web rec B base s = .more (redirectDup s rest u) ∨
          (∃ r, web.render u = some r ∧
            ¬(r.finalUrl ≠ u ∧ r.finalUrl ∈ s.visited_links ++ [u]) ∧
            crawlIter web rec B base s = .more (pageDone rec B base s rest u r)))))) := by
  rcases List.eq_nil_or_concat s.to_visit with h | ⟨rest, u, h⟩
  · exact Or.inl ⟨h, crawlIter_nil web rec B base s h⟩
  · rw [List.concat_eq_append] at h
    refine Or.inr ⟨rest, u, h, ?_⟩
    have key := crawlIter_concat web rec B base s rest u h
    by_cases hv : u ∈ s.visited_links
    · rw [if_pos hv] at key
      exact Or.inl ⟨hv, key⟩
    · rw [if_neg hv] at key
      refine Or.inr ⟨hv, ?_⟩
      by_cases hp : isPdfUrl u
      · rw [if_pos hp] at key
        cases hw : web.pdfFetch u with
        | none => rw [hw] at key; exact Or.inl key
        | some f => rw [hw] at key; exact Or.inr (Or.inl ⟨hp, _, key⟩)
      · rw [if_neg hp] at key
        cases hw : web.render u with
        | none => rw [hw] at key; exact Or.inl key
        | some r =>
          rw [hw] at key
          dsimp only at key
          by_cases hred : r.finalUrl ≠ u ∧ r.finalUrl ∈ s.visited_links ++ [u]
          · rw [if_pos hred] at key
            exact Or.inr (Or.inr (Or.inl key))
          · rw [if_neg hred] at key
            exact Or.inr (Or.inr (Or.inr ⟨r, rfl, hred, key⟩))

theorem allIds_flushFinal (s : CrawlState) : allIds (flushFinal s) = allIds s := by
  unfold flushFinal allIds
  split
  · rfl
  · next hne =>
    simp [List.flatten_append]

theorem flushFinal_dispatched (s : CrawlState) : (flushFinal s).dispatched = s.dispatched := by
  unfold flushFinal; split <;> rfl

theorem flushFinal_visited (s : CrawlState) : (flushFinal s).visited_links = s.visited_links := by
  unfold flushFinal; split <;> rfl

theorem flushFinal_to_visit (s : CrawlState) : (flushFinal s).to_visit = s.to_visit := by
  unfold flushFinal; split <;> rfl

theorem crawlInv_flushFinal {s : CrawlState} (h : CrawlInv s) : CrawlInv (flushFinal s) := by
  obtain ⟨h1, h2, h3, h4⟩ := h
  exact ⟨by rw [allIds_flushFinal]; exact h1,
         by rw [allIds_flushFinal, flushFinal_visited]; exact h2,
         by rw [flushFinal_dispatched]; exact h3,
         by rw [flushFinal_dispatched, flushFinal_visited]; exact h4⟩

theorem crawlInv_popSkip {s : CrawlState} {rest : List String} (h : CrawlInv s) :
    CrawlInv (popSkip s rest) := h

theorem crawlInv_fetchFailed {s : CrawlState} {rest : List String} {u : String}
    (hu : u ∉ s.visited_links) (h : CrawlInv s) : CrawlInv (fetchFailed s rest u) := by
  obtain ⟨h1, h2, h3, h4⟩ := h
  refine ⟨h1, ?_, ?_, ?_⟩
  · intro i hi
    exact List.mem_append_left _ (h2 i hi)
  · show (List.map Prod.fst (s.dispatched ++ [(u, s.sessionNow)])).Nodup
    rw [List.map_append, List.nodup_append]
    refine ⟨h3, List.nodup_singleton u, ?_⟩
    intro a ha hb
    simp only [List.map_cons, List.map_nil, List.mem_singleton] at hb
    subst hb
    exact hu (h4 a ha)
  · show ∀ x ∈ List.map Prod.fst (s.dispatched ++ [(u, s.sessionNow)]),
      x ∈ s.visited_links ++ [u]
    intro x hx
    rw [List.map_append, List.mem_append] at hx
    rcases hx with hx | hx
    · exact List.mem_append_left _ (h4 x hx)
    · simp only [List.map_cons, List.map_nil, List.mem_singleton] at hx
      subst hx
      exact List.mem_append_right _ (List.mem_singleton_self x)

theorem crawlInv_redirectDup {s : CrawlState} {rest : List String} {u : String}
    (hu : u ∉ s.visited_links) (h : CrawlInv s) : CrawlInv (redirectDup s rest u) :=
  @crawlInv_fetchFailed s rest u hu h

theorem crawlInv_pdfDone {s : CrawlState} {rest : List String} {u pt : String}
    (hu : u ∉ s.visited_links) (h : CrawlInv s) : CrawlInv (pdfDone s rest u pt) := by
  obtain ⟨h1, h2, h3, h4⟩ := h
  have hids : allIds (pdfDone s rest u pt) = allIds s ++ [u] := by
    unfold allIds pdfDone
    simp
  have base := @crawlInv_fetchFailed s rest u hu ⟨h1, h2, h3, h4⟩
  obtain ⟨b1, b2, b3, b4⟩ := base
  refine ⟨?_, ?_, b3, b4⟩
  · rw [hids, List.nodup_append]
    refine ⟨h1, List.nodup_singleton u, ?_⟩
    intro a ha hb
    rw [List.mem_singleton] at hb
    subst hb
    exact hu (h2 a ha)
  · rw [hids]
    intro i hi
    rw [List.mem_append] at hi
    rcases hi with hi | hi
    · exact List.mem_append_left _ (h2 i hi)
    · rw [List.mem_singleton] at hi
      subst hi
      exact List.mem_append_right _ (List.mem_singleton_self i)

theorem pageDone_visited (rec : Bool) (B : Nat) (base : String) (s : CrawlState)
    (rest : List String) (u : String) (r : RenderedPage) :
    (pageDone rec B base s rest u r).visited_links = pageVisited s u r := by
  simp only [pageDone]
  split
  · rfl
  · split <;> rfl

theorem pageDone_dispatched (rec : Bool) (B : Nat) (base : String) (s : CrawlState)
    (rest : List String) (u : String) (r : RenderedPage) :
    (pageDone rec B base s rest u r).dispatched = s.dispatched ++ [(u, s.sessionNow)] := by
  simp only [pageDone]
  split
  · rfl
  · split <;> rfl

theorem pageDone_to_visit (rec : Bool) (B : Nat) (base : String) (s : CrawlState)
    (rest : List String) (u : String) (r : RenderedPage) :
    (pageDone rec B base s rest u r).to_visit =
      rest ++ pageLinks rec base (pageVisited s u r) r := by
  simp only [pageDone]
  split
  · rfl
  · split <;> rfl

theorem pageDone_allIds (rec : Bool) (B : Nat) (base : String) (s : CrawlState)
    (rest : List String) (u : String) (r : RenderedPage) :
    allIds (pageDone rec B base s rest u r) = allIds s ++ [r.finalUrl] := by
  simp only [pageDone, allIds]
  split
  · simp [pageDoc]
  · split <;> simp [List.flatten_append, pageDoc]

theorem crawlInv_pageDone {rec : Bool} {B : Nat} {base : String} {s : CrawlState}
    {rest : List String} {u : String} {r : RenderedPage}
    (hu : u ∉ s.visited_links)
    (hred : ¬(r.finalUrl ≠ u ∧ r.finalUrl ∈ s.visited_links ++ [u]))
    (h : CrawlInv s) : CrawlInv (pageDone rec B base s rest u r) := by
  obtain ⟨h1, h2, h3, h4⟩ := h
  have hfin_not : r.finalUrl ∉ s.visited_links := by
    by_cases hfu : r.finalUrl = u
    · rw [hfu]; exact hu
    · intro hmem
      exact hred ⟨hfu, List.mem_append_left _ hmem⟩
  have hsub : ∀ x ∈ s.visited_links ++ [u],
      x ∈ (pageDone rec B base s rest u r).visited_links := by
    intro x hx
    rw [pageDone_visited]
    unfold pageVisited
    split
    · exact hx
    · exact List.mem_append_left _ hx
  have hfin_mem : r.finalUrl ∈ (pageDone rec B base s rest u r).visited_links := by
    rw [pageDone_visited]
    unfold pageVisited
    split
    · next hfu => rw [hfu]; exact List.mem_append_right _ (List.mem_singleton_self u)
    · exact List.mem_append_right _ (List.mem_singleton_self _)
  refine ⟨?_, ?_, ?_, ?_⟩
  · rw [pageDone_allIds, List.nodup_append]
    refine ⟨h1, List.nodup_singleton _, ?_⟩
    intro a ha hb
    rw [List.mem_singleton] at hb
    subst hb
    exact hfin_not (h2 _ ha)
  · rw [pageDone_allIds]
    intro i hi
    rw [List.mem_append] at hi
    rcases hi with hi | hi
    · exact hsub i (List.mem_append_left _ (h2 i hi))
    · rw [List.mem_singleton] at hi
      subst hi
      exact hfin_mem
  · rw [pageDone_dispatched, List.map_append, List.nodup_append]
    refine ⟨h3, List.nodup_singleton u, ?_⟩
    intro a ha hb
    simp only [List.map_cons, List.map_nil, List.mem_singleton] at hb
    subst hb
    exact hu (h4 a ha)
  · rw [pageDone_dispatched, List.map_append]
    intro x hx
    rw [List.mem_append] at hx
    rcases hx with hx | hx
    · exact hsub x (List.mem_append_left _ (h4 x hx))
    · simp only [List.map_cons, List.map_nil, List.mem_singleton] at hx
      subst hx
      exact hsub x (List.mem_append_right _ (List.mem_singleton_self x))

theorem crawlInv_iter (web : Web) (rec : Bool) (B : Nat) (base : String) {s : CrawlState}
    (h : CrawlInv s) : CrawlInv (crawlIter web rec B base s).state := by
  rcases crawlIter_cases web rec B base s with ⟨hnil, he⟩ | ⟨rest, u, hconc, hcase⟩
  · rw [he]; exact crawlInv_flushFinal h
  · rcases hcase with ⟨hv, he⟩ | ⟨hv, hcase⟩
    · rw [he]; exact crawlInv_popSkip h
    · rcases hcase with he | ⟨hp, pt, he⟩ | he | ⟨r, hw, hred, he⟩
      · rw [he]; exact crawlInv_fetchFailed hv h
      · rw [he]; exact crawlInv_pdfDone hv h
      · rw [he]; exact crawlInv_redirectDup hv h
      · rw [he]; exact crawlInv_pageDone hv hred h

theorem crawlInv_loop (web : Web) (rec : Bool) (B : Nat) (base : String) :
    ∀ (fuel : Nat) {s : CrawlState}, CrawlInv s →
      CrawlInv (crawlLoop web rec B base fuel s).1 := by
  intro fuel
  induction fuel with
  | zero => intro s h; exact h
  | succ n ih =>
    intro s h
    have hstep := crawlInv_iter web rec B base h
    unfold crawlLoop
    cases he : crawlIter web rec B base s with
    | done t => rw [he] at hstep; exact hstep
    | more t => rw [he] at hstep; exact ih hstep

theorem crawlIter_dispatched_ext (web : Web) (rec : Bool) (B : Nat) (base : String)
    (s : CrawlState) :
    ∃ t, (crawlIter web rec B base s).state.dispatched = s.dispatched ++ t := by
  rcases crawlIter_cases web rec B base s with ⟨hnil, he⟩ | ⟨rest, u, hconc, hcase⟩
  · exact ⟨[], by rw [he]; show (flushFinal s).dispatched = _; rw [flushFinal_dispatched]; simp⟩
  · rcases hcase with ⟨hv, he⟩ | ⟨hv, hcase⟩
    · exact ⟨[], by rw [he]; simp [popSkip, StepResult.state]⟩
    · rcases hcase with he | ⟨hp, pt, he⟩ | he | ⟨r, hw, hred, he⟩
      · exact ⟨[(u, s.sessionNow)], by rw [he]; rfl⟩
      · exact ⟨[(u, s.sessionNow)], by rw [he]; rfl⟩
      · exact ⟨[(u, s.sessionNow)], by rw [he]; rfl⟩
      · refine ⟨[(u, s.sessionNow)], ?_⟩
        rw [he]
        show (pageDone rec B base s rest u r).dispatched = _
        rw [pageDone_dispatched]

theorem crawlLoop_dispatched_ext (web : Web) (rec : Bool) (B : Nat) (base : String) :
    ∀ (fuel : Nat) (s : CrawlState),
      ∃ t, (crawlLoop web rec B base fuel s).1.dispatched = s.dispatched ++ t := by
  intro fuel
  induction fuel with
  | zero => intro s; exact ⟨[], by simp [crawlLoop]⟩
  | succ n ih =>
    intro s
    obtain ⟨t1, ht1⟩ := crawlIter_dispatched_ext web rec B base s
    unfold crawlLoop
    cases he : crawlIter web rec B base s with
    | done t => rw [he] at ht1; exact ⟨t1, ht1⟩
    | more t =>
      rw [he] at ht1
      dsimp only [StepResult.state] at ht1
      obtain ⟨t2, ht2⟩ := ih t
      refine ⟨t1 ++ t2, ?_⟩
      rw [ht2, ht1, List.append_assoc]

theorem crawlIter_fresh_dispatched (web : Web) (rec : Bool) (B : Nat) (base : String)
    (s : CrawlState) (rest : List String) (u : String)
    (h : s.to_visit = rest ++ [u]) (hu : u ∉ s.visited_links) :
    (crawlIter web rec B base s).state.dispatched =
      s.dispatched ++ [(u, s.sessionNow)] := by
  have key := crawlIter_concat web rec B base s rest u h
  rw [if_neg hu] at key
  by_cases hp : isPdfUrl u
  · rw [if_pos hp] at key
    cases hw : web.pdfFetch u with
    | none => rw [hw] at key; rw [key]; rfl
    | some f => rw [hw] at key; rw [key]; rfl
  · rw [if_neg hp] at key
    cases hw : web.render u with
    | none => rw [hw] at key; rw [key]; rfl
    | some r =>
      rw [hw] at key
      dsimp only at key
      by_cases hred : r.finalUrl ≠ u ∧ r.finalUrl ∈ s.visited_links ++ [u]
      · rw [if_pos hred] at key; rw [key]; rfl
      · rw [if_neg hred] at key
        rw [key]
        show (pageDone rec B base s rest u r).dispatched = _
        rw [pageDone_dispatched]

theorem crawlInv_init (seeds : List String) : CrawlInv (initCrawlState seeds) := by
  refine ⟨?_, ?_, ?_, ?_⟩ <;> simp [CrawlInv, allIds, initCrawlState]

/-- C1: over any environment, seed list and fuel, no URL appears twice by
`id` among the emitted documents (batches plus the pending buffer), no
URL is dispatched (fetched) twice, and a popped URL already in the
visited set is discarded without any fetch or state change beyond the
pop. -/
theorem crawl_no_double_visit (web : Web) (recursive : Bool) (batch_size : Nat)
    (seeds : List String) (fuel : Nat) :
    (allIds (load_from_state web recursive batch_size seeds fuel).1).Nodup ∧
    ((load_from_state web recursive batch_size seeds fuel).1.dispatched.map Prod.fst).Nodup ∧
    (∀ (s : CrawlState) (rest : List String) (u base : String),
      s.to_visit = rest ++ [u] → u ∈ s.visited_links →
      crawlIter web recursive batch_size base s = .more (popSkip s rest)) := by
  have hinv : CrawlInv (load_from_state web recursive batch_size seeds fuel).1 :=
    crawlInv_loop web recursive batch_size (seeds.headD "") fuel (crawlInv_init seeds)
  obtain ⟨h1, h2, h3, h4⟩ := hinv
  refine ⟨h1, h3, ?_⟩
  intro s rest u base h hv
  have key := crawlIter_concat web recursive batch_size base s rest u h
  rw [if_pos hv] at key
  exact key

theorem crawl_no_double_visit_witness :
    crawlIter ⟨fun _ => none, fun _ => none⟩ false 1 "b"
      { to_visit := ["u"], visited_links := ["u"], doc_batch := [], batches := [],
        restart_playwright := false, session := 1, dispatched := [] } =
      .more (popSkip
        { to_visit := ["u"], visited_links := ["u"], doc_batch := [], batches := [],
          restart_playwright := false, session := 1, dispatched := [] } []) :=
  (crawl_no_double_visit ⟨fun _ => none, fun _ => none⟩ false 1 [] 0).2.2
    _ [] "u" "b" rfl (List.mem_singleton_self "u")

theorem crawlLoop_succ_more (fuel : Nat) {web : Web} {rec : Bool} {B : Nat} {base : String}
    {s t : CrawlState} (h : crawlIter web rec B base s = .more t) :
    crawlLoop web rec B base (fuel + 1) s = crawlLoop web rec B base fuel t := by
  conv_lhs => unfold crawlLoop
  rw [h]

theorem crawlIter_done_to_visit {web : Web} {rec : Bool} {B : Nat} {base : String}
    {s : CrawlState} {t : CrawlState} (h : crawlIter web rec B base s = .done t) :
    t.to_visit = [] := by
  rcases crawlIter_cases web rec B base s with ⟨hnil, he⟩ | ⟨rest, u, hconc, hcase⟩
  · rw [he] at h
    cases h
    rw [flushFinal_to_visit]
    exact hnil
  · rcases hcase with ⟨hv, he⟩ | ⟨hv, hcase⟩
    · rw [he] at h; cases h
    · rcases hcase with he | ⟨hp, pt, he⟩ | he | ⟨r, hw, hred, he⟩ <;> rw [he] at h <;> cases h

theorem crawlLoop_done_to_visit (web : Web) (rec : Bool) (B : Nat) (base : String) :
    ∀ (fuel : Nat) (s : CrawlState),
      (crawlLoop web rec B base fuel s).2 = true →
      (crawlLoop web rec B base fuel s).1.to_visit = [] := by
  intro fuel
  induction fuel with
  | zero => intro s h; cases h
  | succ n ih =>
    intro s
    unfold crawlLoop
    cases he : crawlIter web rec B base s with
    | done t => intro _; exact crawlIter_done_to_visit he
    | more t => exact ih t

/-- C3: (a) a render or PDF-fetch exception on a popped URL is caught:
the iteration returns normally, the failed URL is abandoned (the
frontier continues with exactly the remaining URLs, so all subsequent
URLs are still processed), nothing already emitted or buffered changes,
the session is marked for recreation, and the crawl goes on as the same
loop on the remaining frontier; (b) when the restart flag is set, the
next dispatched URL is fetched with a freshly constructed session (the
next generation); (c) the loop reports completion only once the frontier
has been fully drained. -/
theorem crawl_failure_isolation (web : Web) (recursive : Bool) (batch_size : Nat)
    (base : String) :
    (∀ (s : CrawlState) (rest : List String) (u : String) (fuel : Nat),
      s.to_visit = rest ++ [u] → u ∉ s.visited_links →
      ((¬isPdfUrl u ∧ web.render u = none) ∨ (isPdfUrl u ∧ web.pdfFetch u = none)) →
      crawlIter web recursive batch_size base s = .more (fetchFailed s rest u) ∧
      (fetchFailed s rest u).to_visit = rest ∧
      (fetchFailed s rest u).restart_playwright = true ∧
      (fetchFailed s rest u).batches = s.batches ∧
      (fetchFailed s rest u).doc_batch = s.doc_batch ∧
      crawlLoop web recursive batch_size base (fuel + 1) s =
        crawlLoop web recursive batch_size base fuel (fetchFailed s rest u)) ∧
    (∀ (s : CrawlState) (rest : List String) (u : String),
      s.to_visit = rest ++ [u] → u ∉ s.visited_links → s.restart_playwright = true →
      (crawlIter web recursive batch_size base s).state.dispatched =
        s.dispatched ++ [(u, s.session + 1)]) ∧
    (∀ (fuel : Nat) (s : CrawlState),
      (crawlLoop web recursive batch_size base fuel s).2 = true →
      (crawlLoop web recursive batch_size base fuel s).1.to_visit = []) := by
  refine ⟨?_, ?_, crawlLoop_done_to_visit web recursive batch_size base⟩
  · intro s rest u fuel h hv herr
    have key := crawlIter_concat web recursive batch_size base s rest u h
    rw [if_neg hv] at key
    have hiter : crawlIter web recursive batch_size base s = .more (fetchFailed s rest u) := by
      rcases herr with ⟨hp, hw⟩ | ⟨hp, hw⟩
      · rw [if_neg hp, hw] at key
        exact key
      · rw [if_pos hp, hw] at key
        exact key
    exact ⟨hiter, rfl, rfl, rfl, rfl, crawlLoop_succ_more fuel hiter⟩
  · intro s rest u h hv hres
    rw [crawlIter_fresh_dispatched web recursive batch_size base s rest u h hv]
    unfold CrawlState.sessionNow
    rw [hres]
    rfl

theorem crawl_failure_isolation_witness :
    crawlIter ⟨fun _ => none, fun _ => none⟩ false 1 "b"
      { to_visit := ["u"], visited_links := [], doc_batch := [], batches := [],
        restart_playwright := false, session := 1, dispatched := [] } =
      .more (fetchFailed
        { to_visit := ["u"], visited_links := [], doc_batch := [], batches := [],
          restart_playwright := false, session := 1, dispatched := [] } [] "u") :=
  ((crawl_failure_isolation ⟨fun _ => none, fun _ => none⟩ false 1 "b").1
    _ [] "u" 0 rfl (by simp) (Or.inl ⟨by decide, rfl⟩)).1

theorem crawlIter_more_of_ne (web : Web) (rec : Bool) (B : Nat) (base : String)
    (s : CrawlState) (h : s.to_visit ≠ []) :
    ∃ t, crawlIter web rec B base s = .more t := by
  rcases crawlIter_cases web rec B base s with ⟨hnil, he⟩ | ⟨rest, u, hconc, hcase⟩
  · exact absurd hnil h
  · rcases hcase with ⟨hv, he⟩ | ⟨hv, hcase⟩
    · exact ⟨_, he⟩
    · rcases hcase with he | ⟨hp, pt, he⟩ | he | ⟨r, hw, hred, he⟩
      · exact ⟨_, he⟩
      · exact ⟨_, he⟩
      · exact ⟨_, he⟩
      · exact ⟨_, he⟩

/-- C8: seeding in sitemap mode puts the extracted URLs on the frontier
in document order, and the crawl pops from the end of that list, so for
a sitemap listing `[A, B]` the first URL actually dispatched is `B`. -/
theorem sitemap_frontier_lifo (env : InitEnv) (web : Web) (baseArg A B : String)
    (fuel : Nat) (c : WebConnector)
    (hlocs : env.sitemapLocs (_ensure_valid_url baseArg) = [A, B])
    (hmk : WebConnector.make env baseArg "sitemap" true 16 = .ok c) :
    c.to_visit_list = [A, B] ∧
    ((load_from_state web c.recursive c.batch_size c.to_visit_list (fuel + 1)).1.dispatched.map
      Prod.fst).head? = some B := by
  have hc : c = ⟨true, 16, false, [A, B]⟩ := by
    unfold WebConnector.make at hmk
    rw [if_neg (by decide), if_neg (by decide), if_pos rfl] at hmk
    unfold extract_urls_from_sitemap at hmk
    rw [hlocs] at hmk
    injection hmk with h
    exact h.symm
  subst hc
  refine ⟨rfl, ?_⟩
  have hsplit : (initCrawlState [A, B]).to_visit = [A] ++ [B] := rfl
  have hBnot : B ∉ (initCrawlState [A, B]).visited_links := by
    simp [initCrawlState]
  obtain ⟨t1, ht1⟩ := crawlIter_more_of_ne web false 16 ([A, B].headD "")
    (initCrawlState [A, B]) (by simp [initCrawlState])
  have hd1 := crawlIter_fresh_dispatched web false 16 ([A, B].headD "")
    (initCrawlState [A, B]) [A] B hsplit hBnot
  rw [ht1] at hd1
  dsimp only [StepResult.state] at hd1
  show ((crawlLoop web false 16 ([A, B].headD "") (fuel + 1)
    (initCrawlState [A, B])).1.dispatched.map Prod.fst).head? = some B
  rw [crawlLoop_succ_more fuel ht1]
  obtain ⟨t2, ht2⟩ := crawlLoop_dispatched_ext web false 16 ([A, B].headD "") fuel t1
  rw [ht2, hd1]
  simp [initCrawlState, CrawlState.sessionNow]

theorem pageDone_batch_shape (rec : Bool) (B : Nat) (base : String) (s : CrawlState)
    (rest : List String) (u : String) (r : RenderedPage)
    (hcr : r.closeRaises = false) :
    (B ≤ s.doc_batch.length + 1 ∧
      (pageDone rec B base s rest u r).batches = s.batches ++ [s.doc_batch ++ [pageDoc r]] ∧
      (pageDone rec B base s rest u r).doc_batch = []) ∨
    (s.doc_batch.length + 1 < B ∧
      (pageDone rec B base s rest u r).batches = s.batches ∧
      (pageDone rec B base s rest u r).doc_batch = s.doc_batch ++ [pageDoc r]) := by
  by_cases hle : B ≤ s.doc_batch.length + 1
  · left
    refine ⟨hle, ?_, ?_⟩ <;>
      (simp only [pageDone]; rw [if_neg (by simp [hcr]), if_pos (by simpa using hle)])
  · right
    refine ⟨by omega, ?_, ?_⟩ <;>
      (simp only [pageDone]; rw [if_neg (by simp [hcr]), if_neg (by simpa using hle)])

theorem batchInv_more {web : Web} {rec : Bool} {B : Nat} {base : String}
    {s t : CrawlState} (hB : 1 ≤ B) (hinv : BatchInv B s)
    (hnp : ∀ rest u, s.to_visit = rest ++ [u] → u ∉ s.visited_links → ¬isPdfUrl u)
    (hnc : ∀ rest u r, s.to_visit = rest ++ [u] → u ∉ s.visited_links →
      web.render u = some r → r.closeRaises = false)
    (he : crawlIter web rec B base s = .more t) : BatchInv B t := by
  obtain ⟨hfull, hbuf⟩ := hinv
  rcases crawlIter_cases web rec B base s with ⟨hnil, he2⟩ | ⟨rest, u, hconc, hcase⟩
  · rw [he2] at he; cases he
  · rcases hcase with ⟨hv, he2⟩ | ⟨hv, hcase⟩
    · rw [he2] at he; cases he; exact ⟨hfull, hbuf⟩
    · rcases hcase with he2 | ⟨hp, pt, he2⟩ | he2 | ⟨r, hw, hred, he2⟩
      · rw [he2] at he; cases he; exact ⟨hfull, hbuf⟩
      · exact absurd hp (hnp rest u hconc hv)
      · rw [he2] at he; cases he; exact ⟨hfull, hbuf⟩
      · rw [he2] at he
        cases he
        rcases pageDone_batch_shape rec B base s rest u r
            (hnc rest u r hconc hv hw) with ⟨hle, hb, hd⟩ | ⟨hlt, hb, hd⟩
        · constructor
          · rw [hb]
            intro b hbmem
            rw [List.mem_append] at hbmem
            rcases hbmem with hbmem | hbmem
            · exact hfull b hbmem
            · rw [List.mem_singleton] at hbmem
              subst hbmem
              simp only [List.length_append, List.length_cons, List.length_nil]
              omega
          · rw [hd]
            simpa using hB
        · constructor
          · rw [hb]; exact hfull
          · rw [hd]
            simp only [List.length_append, List.length_cons, List.length_nil]
            omega

theorem length_flatten_of_full {B : Nat} :
    ∀ (L : List (List Document)), (∀ b ∈ L, b.length = B) →
      L.flatten.length = L.length * B := by
  intro L
  induction L with
  | nil => intro _; simp
  | cons b L ih =>
    intro h
    have hb : b.length = B := h b (List.mem_cons_self b L)
    have hL : ∀ x ∈ L, x.length = B := fun x hx => h x (List.mem_cons_of_mem b hx)
    simp [List.flatten_cons, hb, ih hL, Nat.succ_mul, Nat.add_comm]

theorem finalBatches_flushFinal {B : Nat} {s : CrawlState} (hB : 1 ≤ B)
    (hinv : BatchInv B s) : FinalBatches B (flushFinal s) := by
  obtain ⟨hfull, hbuf⟩ := hinv
  have hB0 : 0 < B := hB
  unfold flushFinal
  split
  · next hemp =>
    refine ⟨fun b hb => hfull b (List.dropLast_subset _ hb), fun b hb => ?_, ?_⟩
    · have := hfull b hb
      omega
    · rw [length_flatten_of_full s.batches hfull, Nat.add_sub_assoc hB,
          Nat.add_comm, Nat.mul_comm, Nat.add_mul_div_left _ _ hB0,
          Nat.div_eq_of_lt (by omega)]
      omega
  · next hemp =>
    rw [List.isEmpty_iff] at hemp
    have hne : s.doc_batch.length ≠ 0 := fun h0 => hemp (List.eq_nil_of_length_eq_zero h0)
    obtain ⟨r, hr⟩ : ∃ r, s.doc_batch.length = r + 1 := ⟨s.doc_batch.length - 1, by omega⟩
    have hrB : r < B := by omega
    refine ⟨?_, ?_, ?_⟩
    · show ∀ b ∈ (s.batches ++ [s.doc_batch]).dropLast, b.length = B
      rw [List.dropLast_concat]
      exact hfull
    · intro b hb
      rw [List.mem_append] at hb
      rcases hb with hb | hb
      · have := hfull b hb
        omega
      · rw [List.mem_singleton] at hb
        subst hb
        omega
    · show (s.batches ++ [s.doc_batch]).length =
        ((s.batches ++ [s.doc_batch]).flatten.length + B - 1) / B
      rw [List.flatten_append, List.length_append, List.length_append,
          length_flatten_of_full s.batches hfull]
      simp only [List.flatten_cons, List.flatten_nil, List.append_nil, List.length_cons,
        List.length_nil]
      rw [hr]
      have hkey : s.batches.length * B + (r + 1) + B - 1 = r + B * (s.batches.length + 1) := by
        rw [show s.batches.length * B + (r + 1) + B = (s.batches.length * B + r + B) + 1 by
              ring,
            Nat.add_sub_cancel]
        ring
      rw [hkey, Nat.add_mul_div_left _ _ hB0, Nat.div_eq_of_lt hrB]
      omega

theorem finalBatches_done {web : Web} {rec : Bool} {B : Nat} {base : String}
    {s t : CrawlState} (hB : 1 ≤ B) (hinv : BatchInv B s)
    (he : crawlIter web rec B base s = .done t) : FinalBatches B t := by
  rcases crawlIter_cases web rec B base s with ⟨hnil, he2⟩ | ⟨rest, u, hconc, hcase⟩
  · rw [he2] at he
    cases he
    exact finalBatches_flushFinal hB hinv
  · rcases hcase with ⟨hv, he2⟩ | ⟨hv, hcase⟩
    · rw [he2] at he; cases he
    · rcases hcase with he2 | ⟨hp, pt, he2⟩ | he2 | ⟨r, hw, hred, he2⟩ <;> rw [he2] at he <;> cases he

theorem batchInv_loop (web : Web) (rec : Bool) (base : String) {B : Nat} (hB : 1 ≤ B) :
    ∀ (fuel : Nat) (s : CrawlState), BatchInv B s →
      (∀ x ∈ (crawlLoop web rec B base fuel s).1.dispatched.map Prod.fst, ¬isPdfUrl x) →
      (∀ x ∈ (crawlLoop web rec B base fuel s).1.dispatched.map Prod.fst,
        ∀ r, web.render x = some r → r.closeRaises = false) →
      (crawlLoop web rec B base fuel s).2 = true →
      FinalBatches B (crawlLoop web rec B base fuel s).1 := by
  intro fuel
  induction fuel with
  | zero =>
    intro s _ _ _ h
    simp [crawlLoop] at h
  | succ n ih =>
    intro s hinv Hpdf Hclose hdone
    cases he : crawlIter web rec B base s with
    | done t =>
      have hfb := finalBatches_done hB hinv he
      have heq : crawlLoop web rec B base (n + 1) s = (t, true) := by
        conv_lhs => unfold crawlLoop
        rw [he]
      rw [heq]
      exact hfb
    | more t =>
      have heq := crawlLoop_succ_more n he
      rw [heq] at Hpdf Hclose hdone ⊢
      have hmem : ∀ rest u, s.to_visit = rest ++ [u] → u ∉ s.visited_links →
          u ∈ (crawlLoop web rec B base n t).1.dispatched.map Prod.fst := by
        intro rest u hconc hv
        have ht : t.dispatched = s.dispatched ++ [(u, s.sessionNow)] := by
          have hfd := crawlIter_fresh_dispatched web rec B base s rest u hconc hv
          rw [he] at hfd
          exact hfd
        obtain ⟨t2, ht2⟩ := crawlLoop_dispatched_ext web rec B base n t
        rw [ht2, ht]
        simp
      refine ih t (batchInv_more hB hinv ?_ ?_ he) Hpdf Hclose hdone
      · intro rest u hconc hv
        exact Hpdf u (hmem rest u hconc hv)
      · intro rest u r hconc hv hw
        exact Hclose u (hmem rest u hconc hv) r hw

/-- C2 (amended): for a crawl that completes within its fuel, with a
positive batch size, in which no dispatched URL was routed to the PDF
branch (whose `continue` skips the batch-size check) and no dispatched
page's trailing `page.close()` raised (the `except`/`continue` after the
append skips the same check), the emitted batches are all exactly of
size `B` except possibly the last, every batch is nonempty and at most
`B`, and the number of batches is the ceiling of the emitted-document
count over `B`. -/
theorem crawl_batch_sizing (web : Web) (recursive : Bool) (B : Nat)
    (seeds : List String) (fuel : Nat) (hB : 1 ≤ B)
    (hnopdf : ∀ x ∈ (load_from_state web recursive B seeds fuel).1.dispatched.map Prod.fst,
      ¬isPdfUrl x)
    (hnoclose : ∀ x ∈ (load_from_state web recursive B seeds fuel).1.dispatched.map Prod.fst,
      ∀ r, web.render x = some r → r.closeRaises = false)
    (hdone : (load_from_state web recursive B seeds fuel).2 = true) :
    FinalBatches B (load_from_state web recursive B seeds fuel).1 := by
  refine batchInv_loop web recursive (seeds.headD "") hB fuel (initCrawlState seeds)
    ⟨?_, ?_⟩ hnopdf hnoclose hdone
  · intro b hb
    simp [initCrawlState] at hb
  · show (0 : Nat) < B
    omega

theorem crawl_batch_sizing_witness :
    FinalBatches 1
      (load_from_state ⟨fun _ => none, fun _ => none⟩ false 1 ["a"] 2).1 :=
  crawl_batch_sizing ⟨fun _ => none, fun _ => none⟩ false 1 ["a"] 2 (by decide)
    (by decide) (fun x _ r hr => Option.noConfusion hr) (by decide)

/-- C2 counterexample, two runs with batch size 1 that each process two
pages successfully yet yield a single batch holding both documents,
where the claim demands two batches of one.  First: two PDF URLs — the
PDF branch `continue` bypasses the flush check.  Second: two plain HTML
pages where `page.close()` raises on the first — the `except`/`continue`
after the append bypasses the same check, so the violation does not need
any PDF. -/
theorem crawl_batch_sizing_counterexample :
    (load_from_state
        ⟨fun _ => none, fun _ => some ⟨false, fun _ => none, some ["x"]⟩⟩
        false 1 ["a.pdf", "b.pdf"] 3).2 = true ∧
    (load_from_state
        ⟨fun _ => none, fun _ => some ⟨false, fun _ => none, some ["x"]⟩⟩
        false 1 ["a.pdf", "b.pdf"] 3).1.batches.map List.length = [2] ∧
    ¬ FinalBatches 1
      (load_from_state
        ⟨fun _ => none, fun _ => some ⟨false, fun _ => none, some ["x"]⟩⟩
        false 1 ["a.pdf", "b.pdf"] 3).1 ∧
    (load_from_state
        ⟨fun u => some ⟨u, [], "t", "", [], u == "b"⟩, fun _ => none⟩
        false 1 ["a", "b"] 3).2 = true ∧
    (load_from_state
        ⟨fun u => some ⟨u, [], "t", "", [], u == "b"⟩, fun _ => none⟩
        false 1 ["a", "b"] 3).1.batches.map List.length = [2] ∧
    ¬ FinalBatches 1
      (load_from_state
        ⟨fun u => some ⟨u, [], "t", "", [], u == "b"⟩, fun _ => none⟩
        false 1 ["a", "b"] 3).1 := by
  refine ⟨by decide, by decide, ?_, by decide, by decide, ?_⟩
  · intro h
    obtain ⟨h1, h2, h3⟩ := h
    revert h3
    decide
  · intro h
    obtain ⟨h1, h2, h3⟩ := h
    revert h3
    decide

theorem linkStep_spec (base_url url : String) (sip : Bool) (acc : List String)
    (a : Anchor) :
    ∀ x ∈ linkStep base_url url sip acc a,
      x ∈ acc ∨ (netlocOf x = netlocOf url ∧ strContains x base_url = true) := by
  intro x hx
  unfold linkStep at hx
  cases a with
  | none => exact Or.inl hx
  | some href0 =>
    dsimp only at hx
    by_cases h0 : href0 = ""
    · rw [if_pos h0] at hx
      exact Or.inl hx
    · rw [if_neg h0] at hx
      set href1 := if sip && href0.data.contains '#'
        then (⟨href0.data.takeWhile (· ≠ '#')⟩ : String) else href0 with hh1
      set href2 := if !is_valid_url href1 then urljoin url href1 else href1 with hh2
      by_cases hcond : netlocOf href2 = netlocOf url ∧ strContains href2 base_url = true
      · rw [if_pos hcond] at hx
        by_cases hmem : href2 ∈ acc
        · rw [if_pos hmem] at hx
          exact Or.inl hx
        · rw [if_neg hmem] at hx
          rw [List.mem_append] at hx
          rcases hx with hx | hx
          · exact Or.inl hx
          · rw [List.mem_singleton] at hx
            subst hx
            exact Or.inr hcond
      · rw [if_neg hcond] at hx
        exact Or.inl hx

theorem foldl_linkStep_spec (base_url url : String) (sip : Bool) :
    ∀ (anchors : List Anchor) (acc : List String),
      (∀ x ∈ acc, netlocOf x = netlocOf url ∧ strContains x base_url = true) →
      ∀ x ∈ anchors.foldl (linkStep base_url url sip) acc,
        netlocOf x = netlocOf url ∧ strContains x base_url = true := by
  intro anchors
  induction anchors with
  | nil => intro acc hacc x hx; exact hacc x hx
  | cons a rest ih =>
    intro acc hacc x hx
    rw [List.foldl_cons] at hx
    refine ih (linkStep base_url url sip acc a) ?_ x hx
    intro y hy
    rcases linkStep_spec base_url url sip acc a y hy with hy2 | hy2
    · exact hacc y hy2
    · exact hy2

/-- C6: every link the extractor returns has the same network location
as the page it was found on and contains the scope URL as a substring;
and on a successful recursive-mode page fetch the frontier is extended
exactly by the extractor output on the final page URL, filtered to
not-yet-visited links — so every link pushed also satisfies both
conditions. -/
theorem scope_containment (base_url url : String) (sip : Bool) :
    (∀ (anchors : List Anchor),
      ∀ link ∈ get_internal_links base_url url anchors sip,
        netlocOf link = netlocOf url ∧ strContains link base_url = true) ∧
    (∀ (web : Web) (B : Nat) (s : CrawlState) (rest : List String) (u : String)
        (r : RenderedPage),
      s.to_visit = rest ++ [u] → u ∉ s.visited_links → ¬isPdfUrl u →
      web.render u = some r → ¬(r.finalUrl ≠ u ∧ r.finalUrl ∈ s.visited_links ++ [u]) →
      crawlIter web true B base_url s = .more (pageDone true B base_url s rest u r) ∧
      (pageDone true B base_url s rest u r).to_visit =
        rest ++ (get_internal_links base_url r.finalUrl r.anchors true).filter
          (fun link => !(pageVisited s u r).contains link)) := by
  constructor
  · intro anchors link hlink
    refine foldl_linkStep_spec base_url url sip anchors [] ?_ link hlink
    intro x hx
    cases hx
  · intro web B s rest u r hconc hv hp hw hred
    have key := crawlIter_concat web true B base_url s rest u hconc
    rw [if_neg hv, if_neg hp, hw] at key
    dsimp only at key
    rw [if_neg hred] at key
    refine ⟨key, ?_⟩
    rw [pageDone_to_visit]
    unfold pageLinks
    rw [if_pos rfl]

theorem scope_containment_witness :
    netlocOf "https://ex.com/docs/a" = netlocOf "https://ex.com/docs/page" ∧
    strContains "https://ex.com/docs/a" "https://ex.com/docs" = true :=
  (scope_containment "https://ex.com/docs" "https://ex.com/docs/page" true).1
    [some "/docs/a"] "https://ex.com/docs/a" (by decide)

theorem urljoin_empty (u : String) : urljoin u "" = u := by
  unfold urljoin
  by_cases h : u = ""
  · rw [if_pos h, h]
  · rw [if_neg h, if_pos rfl]

/-- C10: with fragment stripping enabled, an anchor whose href is just a
fragment is stripped to the empty string, which resolves via `urljoin`
back to the current page URL; when the page is in scope the page's own
URL is therefore returned as a discovered link. -/
theorem fragment_self_link (base_url url : String)
    (hscope : strContains url base_url = true) :
    get_internal_links base_url url [some "#top"] true = [url] := by
  unfold get_internal_links
  rw [List.foldl_cons, List.foldl_nil]
  unfold linkStep
  dsimp only
  rw [if_neg (by decide : ¬("#top" = ""))]
  have h1 : (if true && "#top".data.contains '#'
      then (⟨"#top".data.takeWhile (· ≠ '#')⟩ : String) else "#top") = "" := by decide
  rw [h1]
  have h2 : (if !is_valid_url "" then urljoin url "" else "") = url := by
    rw [if_pos (by decide), urljoin_empty]
  rw [h2, if_pos ⟨rfl, hscope⟩, if_neg (List.not_mem_nil url)]
  rfl

theorem fragment_self_link_witness :
    get_internal_links "https://ex.com/docs" "https://ex.com/docs/page"
      [some "#top"] true = ["https://ex.com/docs/page"] :=
  fragment_self_link "https://ex.com/docs" "https://ex.com/docs/page" (by decide)

/-- C7: `read_pdf_file` returns the empty string rather than raising for
an encrypted PDF with a wrong password (decrypt returns 0 or raises) and
for an encrypted PDF with no password (extraction raises); and the crawl
loop, which always calls it without a password, still appends a Document
with empty text whose id and source are the URL. -/
theorem pdf_decrypt_failure :
    (∀ (f : PdfFile) (name p : String), f.is_encrypted = true →
      (f.decrypt p = none ∨ f.decrypt p = some 0) →
      read_pdf_file f name (some p) = "") ∧
    (∀ (f : PdfFile) (name : String), f.pages = none →
      read_pdf_file f name none = "") ∧
    (∀ (web : Web) (rec : Bool) (B : Nat) (base : String) (s : CrawlState)
        (rest : List String) (u : String) (f : PdfFile),
      s.to_visit = rest ++ [u] → u ∉ s.visited_links → isPdfUrl u →
      web.pdfFetch u = some f → f.pages = none →
      crawlIter web rec B base s = .more (pdfDone s rest u "") ∧
      (pdfDone s rest u "").doc_batch = s.doc_batch ++ [⟨u, "", some u, []⟩]) := by
  refine ⟨?_, ?_, ?_⟩
  · intro f name p henc hd
    unfold read_pdf_file
    rw [henc]
    rcases hd with hd | hd <;> simp [hd]
  · intro f name hpages
    unfold read_pdf_file
    simp [hpages]
  · intro web rec B base s rest u f hconc hv hp hw hpages
    have hread : read_pdf_file f u none = "" := by
      unfold read_pdf_file
      simp [hpages]
    have key := crawlIter_concat web rec B base s rest u hconc
    rw [if_neg hv, if_pos hp, hw] at key
    dsimp only at key
    rw [hread] at key
    exact ⟨key, rfl⟩

theorem pdf_decrypt_failure_witness :
    read_pdf_file ⟨true, fun _ => some 0, some ["secret"]⟩ "f.pdf" (some "pw") = "" ∧
    crawlIter ⟨fun _ => none, fun _ => some ⟨true, fun _ => some 0, none⟩⟩ false 4 "b"
      { to_visit := ["a.pdf"], visited_links := [], doc_batch := [], batches := [],
        restart_playwright := false, session := 1, dispatched := [] } =
      .more (pdfDone
        { to_visit := ["a.pdf"], visited_links := [], doc_batch := [], batches := [],
          restart_playwright := false, session := 1, dispatched := [] } [] "a.pdf" "") :=
  ⟨pdf_decrypt_failure.1 ⟨true, fun _ => some 0, some ["secret"]⟩ "f.pdf" "pw" rfl
      (Or.inr rfl),
   (pdf_decrypt_failure.2.2 ⟨fun _ => none, fun _ => some ⟨true, fun _ => some 0, none⟩⟩
      false 4 "b" _ [] "a.pdf" ⟨true, fun _ => some 0, none⟩ rfl (by simp) (by decide)
      rfl rfl).1⟩

/-- C4 counterexample: the two-row table does not normalize to
"A\tB\nC\tD"; the first cell of each row also emits a tab and only the
leading one is trimmed away, so the second row keeps its leading tab. -/
theorem table_formatting_counterexample :
    format_document_soup tableDoc = "A\tB\n\tC\tD" ∧
    ¬(format_document_soup tableDoc = "A\tB\nC\tD") := by
  constructor
  · decide
  · decide

/-- C4 (amended): the table normalizes to "A\tB\n\tC\tD" (tab-separated
cells, rows separated by a newline, each row after stripping starting
with the tab its first cell emitted), and table mode is still active at
the end of the walk: the close of the table never appears as a walked
node, so the exit branch never fires. -/
theorem table_formatting :
    format_document_soup tableDoc = "A\tB\n\tC\tD" ∧
    (formatWalk ['\t'] tableDoc).in_table = true := by
  constructor
  · decide
  · decide

theorem formatStep_in_table_text (sep : List Char) (s : FormatState) (t : String) :
    (formatStep sep s (.text t)).in_table = s.in_table := by
  simp only [formatStep]
  split <;> split <;> split <;> rfl

theorem formatStep_in_table_elem (sep : List Char) (s : FormatState) (name : String)
    (cs : List DomNode) (h : s.in_table = true) (hn : name ≠ "/table") :
    (formatStep sep s (.elem name cs)).in_table = true := by
  simp only [formatStep]
  split_ifs <;> simp_all

theorem formatStep_in_table_comment (sep : List Char) (s : FormatState) (t : String) :
    (formatStep sep s (.comment t)).in_table = s.in_table := rfl

theorem foldl_in_table_sticky (sep : List Char) :
    ∀ (l : List DomNode) (s : FormatState), s.in_table = true →
      (∀ n ∈ l, isTableCloseNode n = false) →
      (l.foldl (formatStep sep) s).in_table = true := by
  intro l
  induction l with
  | nil => intro s h _; exact h
  | cons n rest ih =>
    intro s h hall
    rw [List.foldl_cons]
    refine ih (formatStep sep s n) ?_ (fun m hm => hall m (List.mem_cons_of_mem n hm))
    cases n with
    | text t => rw [formatStep_in_table_text]; exact h
    | comment t => rw [formatStep_in_table_comment]; exact h
    | elem name cs =>
      refine formatStep_in_table_elem sep s name cs h ?_
      have := hall (.elem name cs) (List.mem_cons_self _ _)
      simp only [isTableCloseNode] at this
      exact fun hcon => by rw [hcon] at this; exact absurd this (by decide)

/-- C9: once the walk sees a `<table>` tag, table mode is set, and it
survives every later node of the document because an HTML parse tree
never contains a tag literally named "/table" — the only branch that
clears it.  While table mode is active, `td`/`tr` still emit the cell
and row separators, and the `p`, heading, `br`, `li` and `pre` rules are
all suppressed (the walk falls into the in-table pass-through branch). -/
theorem table_mode_never_exits (sep : List Char) :
    (∀ (s : FormatState) (cs : List DomNode),
      (formatStep sep s (.elem "table" cs)).in_table = true) ∧
    (∀ (s : FormatState) (l1 l2 cs : List DomNode),
      (∀ n ∈ l2, isTableCloseNode n = false) →
      ((l1 ++ .elem "table" cs :: l2).foldl (formatStep sep) s).in_table = true) ∧
    (∀ (s : FormatState) (cs : List DomNode), s.in_table = true →
      (formatStep sep s (.elem "td" cs)).text = s.text ++ sep ∧
      (formatStep sep s (.elem "tr" cs)).text = s.text ++ ['\n'] ∧
      (formatStep sep s (.elem "p" cs)).text = s.text ∧
      (formatStep sep s (.elem "h1" cs)).text = s.text ∧
      (formatStep sep s (.elem "br" cs)).text = s.text ∧
      (formatStep sep s (.elem "li" cs)).text = s.text ∧
      (formatStep sep s (.elem "pre" cs)).verbatim_output = s.verbatim_output - 1) := by
  refine ⟨?_, ?_, ?_⟩
  · intro s cs
    simp [formatStep]
  · intro s l1 l2 cs hall
    rw [List.foldl_append, List.foldl_cons]
    refine foldl_in_table_sticky sep l2 _ ?_ hall
    simp [formatStep]
  · intro s cs h
    refine ⟨?_, ?_, ?_, ?_, ?_, ?_, ?_⟩ <;> simp [formatStep, h]

/-- C5 counterexample: a `<pre>` whose single text child contains a
newline; the claim says the newline is preserved literally, but the
countdown is the direct-child count (1), already spent when the text
node is processed, so the newline is collapsed to a space. -/
theorem pre_verbatim_counterexample :
    format_document_soup preDoc = "a b" ∧ ¬(format_document_soup preDoc = "a\nb") := by
  constructor
  · decide
  · decide

/-- C5 (amended): on reaching a `<pre>` outside table mode with no
active verbatim span, the walk sets the countdown to the number of
direct children of the element — not its descendant count — so with the
per-node decrement only the next childCount − 1 nodes are treated
verbatim: for a pre with two text children the first keeps its newline
and the second is collapsed. -/
theorem pre_verbatim_childcount (sep : List Char) (s : FormatState) (cs : List DomNode)
    (hin : s.in_table = false) (hv : s.verbatim_output ≤ 1) :
    formatStep sep s (.elem "pre" cs) = { s with verbatim_output := (cs.length : Int) } ∧
    format_document_soup preDoc2 = "a\nb c d" := by
  constructor
  · simp only [formatStep]
    rw [if_neg (by decide), if_neg (by simp), if_neg (by simp), if_neg (by decide),
        if_neg (by simp [hin]), if_neg (by decide), if_neg (by decide),
        if_neg (by decide), if_neg (by decide)]
    rw [if_pos trivial, if_pos (by omega)]
  · decide

theorem pre_verbatim_childcount_witness :
    formatStep ['\t'] initFormatState (.elem "pre" [.text "a\nb"]) =
      { initFormatState with verbatim_output := (1 : Int) } ∧
    format_document_soup preDoc2 = "a\nb c d" :=
  pre_verbatim_childcount ['\t'] initFormatState [.text "a\nb"] rfl (by decide)

theorem sitemap_frontier_lifo_witness :
    (⟨true, 16, false, ["A", "B"]⟩ : WebConnector).to_visit_list = ["A", "B"] ∧
    ((load_from_state ⟨fun _ => none, fun _ => none⟩
        (⟨true, 16, false, ["A", "B"]⟩ : WebConnector).recursive
        (⟨true, 16, false, ["A", "B"]⟩ : WebConnector).batch_size
        (⟨true, 16, false, ["A", "B"]⟩ : WebConnector).to_visit_list (0 + 1)).1.dispatched.map
      Prod.fst).head? = some "B" :=
  sitemap_frontier_lifo ⟨fun _ => ["A", "B"], fun _ => []⟩ ⟨fun _ => none, fun _ => none⟩
    "x" "A" "B" 0 ⟨true, 16, false, ["A", "B"]⟩ rfl rfl

theorem table_mode_never_exits_witness :
    (([] ++ DomNode.elem "table" [] :: [DomNode.elem "p" []]).foldl
      (formatStep ['\t']) initFormatState).in_table = true ∧
    (formatStep ['\t'] { initFormatState with in_table := true } (.elem "p" [])).text =
      ({ initFormatState with in_table := true } : FormatState).text :=
  ⟨(table_mode_never_exits ['\t']).2.1 initFormatState [] [DomNode.elem "p" []] []
      (by decide),
   ((table_mode_never_exits ['\t']).2.2 { initFormatState with in_table := true } []
      rfl).2.2.1⟩

/-- C10 counterexample: the fragment-only anchor resolves to the page's
own URL, but when that URL does not contain the scope URL the filter
discards it, so it is not unconditionally returned. -/
theorem fragment_self_link_counterexample :
    get_internal_links "https://other.com" "https://ex.com/page" [some "#top"] true = [] := by
  decide
